import Mathlib

set_option maxHeartbeats 1000000

/-
Verification model of the ACP JSON-RPC bridge in `src/acp/client.ts`
(class `AcpClient`).  The client talks to a spawned agent process over
line-delimited JSON on stdin/stdout: it issues control requests
(`initialize`, `session/new`, `session/load`, `session/cancel`) tracked in a
pending table with 60 s timers, sends `session/prompt` fire-and-forget
(tracked only in `promptRequestIds`), and serves agent-initiated requests
(`session/request_permission` and the five `terminal/...` methods) backed by
a terminal registry of locally spawned processes.

The embedding is a shallow, executable translation: the mutable fields of
`AcpClient` become a `ClientState`, each handler becomes a function
returning the new state together with the list of observable actions it
performs (bytes written to the agent, events emitted on the EventEmitter,
promise settlements, processes spawned or signalled).  Asynchronous
callbacks (readline lines, `setTimeout` firings, child-process `data` /
`close` events, agent-process `close` / `error` events, and the public API
calls) are modelled as an `Event` alphabet with a total `step` function;
`run` folds a list of events.

Promise settlement is modelled at the JavaScript level: a promise settles
at most once, so the state carries the set of correlation ids whose
awaitable has already settled, and a `resolve` / `reject` call on an
already-settled promise is absorbed (emits no `settle` action).
-/

namespace AcpClientModel

/-- JSON-RPC ids on the wire are `string | number`; the client allocates
numeric ids from `nextId`. -/
inductive JsonId where
  | str (s : String)
  | num (n : Nat)
deriving DecidableEq

/-- Result payloads that `AcpClient` ever writes back in a response
(`respond` call sites).  The code never writes a JSON-RPC error response. -/
inductive RespResult where
  | terminalId (tid : String)
  | outputRes (output : String) (truncated : Bool) (exitStatus : Option Int)
  | exitRes (exitCode : Int)
  | emptyObj
  | permissionOutcome (optionId : String)
deriving DecidableEq

/-- How the awaitable of a client-initiated request was settled. -/
inductive SettleKind where
  | resolved (result : Option String)
  | rejectedError (msg : String)
  | rejectedTimeout (method : String)
  | rejectedFailAll (exitCode : Option Int)
  | rejectedSendThrow
deriving DecidableEq

/-- Observable effects of the client: writes to the agent's stdin, events
emitted on the EventEmitter, promise settlements, and process operations. -/
inductive Action where
  | wroteRequest (id : Nat) (method : String)
  | wroteResponse (id : Option JsonId) (result : RespResult)
  | armTimer (id : Nat) (ms : Nat)
  | settle (id : Nat) (k : SettleKind)
  | emitUpdate (sessionId : String) (upd : String)
  | emitTurnEnd (sessionId : String)
  | emitPermission (sessionId : Option String) (id : Option JsonId)
  | emitExit (code : Option Int)
  | emitError (msg : String)
  | spawned (termId : String) (command : Option String)
  | sigtermed (termId : String)
  | sendThrew (msg : String)
deriving DecidableEq

/-- One entry of the terminal registry (`this.terminals`): the combined
stdout+stderr buffer, the recorded exit code (null until the child's
`close` event, and possibly null afterwards when the child was killed by a
signal), whether the `close` event has fired (implicit in the TS process
object; a `close` listener added after the event never runs), and the
response ids of `terminal/wait_for_exit` callers whose reply was deferred
to a `close` listener. -/
structure TermEntry where
  output : String
  exitCode : Option Int
  closed : Bool
  waiters : List (Option JsonId)
deriving DecidableEq

/-- The `params` object of an inbound message, with only the fields the
client reads.  A missing field is `none` (JS `undefined`).  A message with
no `params` object at all is modelled as all fields missing. -/
structure MsgParams where
  sessionId : Option String := none
  update : Option String := none
  terminalId : Option String := none
  command : Option String := none
deriving DecidableEq

/-- A parsed inbound JSON message, as `handleLine` inspects it:
`(msg as any).id`, `(msg as any).method`, `params`, and for responses
`result` / `error` (the `error` field is `some message` when present and
truthy; `update` payloads are opaque strings). -/
structure AcpMessage where
  id : Option JsonId := none
  method : Option String := none
  params : Option MsgParams := none
  result : Option String := none
  error : Option String := none
deriving DecidableEq

/-- An inbound line as `handleLine` classifies it: blank after `trim()`,
rejected by `JSON.parse`, or parsed into a message. -/
inductive RawLine where
  | blankLine
  | unparsable (raw : String)
  | parsed (m : AcpMessage)
deriving DecidableEq

/-- The mutable state of one `AcpClient`: stdin writability, the id
counter, the keys of the pending map, the armed `setTimeout` timers
(id with the captured method name), the ids whose promise has settled,
the prompt-id-to-session map, the terminal registry, and the terminal
counter. -/
structure ClientState where
  writable : Bool
  nextId : Nat
  pending : List Nat
  timers : List (Nat × String)
  settledIds : List Nat
  promptRequestIds : List (Nat × String)
  terminals : List (String × TermEntry)
  terminalCounter : Nat
deriving DecidableEq

/-- Association-list lookup with unique-key Map semantics (first match). -/
def alget {α β : Type} [DecidableEq α] (k : α) : List (α × β) → Option β
  | [] => none
  | (k', v) :: rest => if k' = k then some v else alget k rest

/-- Association-list insert with `Map.set` semantics: replace in place
when the key exists, else append. -/
def alset {α β : Type} [DecidableEq α] (k : α) (v : β) : List (α × β) → List (α × β)
  | [] => [(k, v)]
  | (k', v') :: rest => if k' = k then (k, v) :: rest else (k', v') :: alset k v rest

/-- Association-list delete (`Map.delete`). -/
def aldel {α β : Type} [DecidableEq α] (k : α) : List (α × β) → List (α × β)
  | [] => []
  | (k', v') :: rest => if k' = k then aldel k rest else (k', v') :: aldel k rest

/-- Update the value stored under a key in place. -/
def alupd {α β : Type} [DecidableEq α] (k : α) (f : β → β) : List (α × β) → List (α × β)
  | [] => []
  | (k', v') :: rest =>
    if k' = k then (k', f v') :: alupd k f rest else (k', v') :: alupd k f rest

/-- The `respond` method (client.ts:122-125): if stdin is not writable it
returns silently without writing; otherwise it writes one response line. -/
def respondActs (s : ClientState) (id : Option JsonId) (r : RespResult) : List Action :=
  if s.writable then [Action.wroteResponse id r] else []

/-- The `send` method (client.ts:117-120): throws "ACP process not
writable" when stdin is unwritable, otherwise writes one request line. -/
def sendReq (s : ClientState) (id : Nat) (method : String) : Except String (List Action) :=
  if s.writable then Except.ok [Action.wroteRequest id method]
  else Except.error "ACP process not writable"

/-- The public `resolvePermission` (client.ts:86-88): responds with the
selected-outcome result via `respond`. -/
def resolvePermission (s : ClientState) (requestId : JsonId) (optionId : String) : List Action :=
  respondActs s (some requestId) (RespResult.permissionOutcome optionId)

/-- Settle the awaitable of id `n`: a JS promise settles at most once, so
if `n` has settled before nothing is observable; otherwise record the
settlement and emit it after the actions `pre`. -/
def settleNow (s : ClientState) (n : Nat) (k : SettleKind) (pre : List Action) :
    ClientState × List Action :=
  if n ∈ s.settledIds then (s, pre)
  else ({ s with settledIds := s.settledIds ++ [n] }, pre ++ [Action.settle n k])

/-- `handleTerminalCreate` (client.ts:199-222): mints `term_<n>` with the
pre-incremented counter, spawns the child, registers a fresh registry
entry with empty buffer and null exit code, and responds with the
terminal id. -/
def handleTerminalCreate (s : ClientState) (id : Option JsonId) (p : MsgParams) :
    ClientState × List Action :=
  let counter' := s.terminalCounter + 1
  let termId := "term_" ++ toString counter'
  let entry : TermEntry := { output := "", exitCode := none, closed := false, waiters := [] }
  ({ s with terminalCounter := counter', terminals := alset termId entry s.terminals },
   Action.spawned termId p.command :: respondActs s id (RespResult.terminalId termId))

/-- `handleTerminalOutput` (client.ts:224-235): a synchronous snapshot; an
unknown handle gets an empty buffer result, a known one gets the buffer so
far plus the exit status only when the exit code is non-null. -/
def handleTerminalOutput (s : ClientState) (id : Option JsonId) (p : MsgParams) :
    ClientState × List Action :=
  match p.terminalId.bind (fun t => alget t s.terminals) with
  | none => (s, respondActs s id (RespResult.outputRes "" false none))
  | some e => (s, respondActs s id (RespResult.outputRes e.output false e.exitCode))

/-- `handleTerminalWaitForExit` (client.ts:237-250): unknown handle gets
exit code 1; a non-null recorded exit code is returned immediately;
otherwise a `close` listener is registered that will respond with
`code ?? 1`. -/
def handleTerminalWaitForExit (s : ClientState) (id : Option JsonId) (p : MsgParams) :
    ClientState × List Action :=
  match p.terminalId with
  | none => (s, respondActs s id (RespResult.exitRes 1))
  | some t =>
    match alget t s.terminals with
    | none => (s, respondActs s id (RespResult.exitRes 1))
    | some e =>
      match e.exitCode with
      | some k => (s, respondActs s id (RespResult.exitRes k))
      | none =>
        ({ s with terminals := alupd t (fun e0 => { e0 with waiters := e0.waiters ++ [id] }) s.terminals },
         [])

/-- `handleTerminalKill` (client.ts:252-256): SIGTERM if the entry exists
and is still running, then always respond with an empty object. -/
def handleTerminalKill (s : ClientState) (id : Option JsonId) (p : MsgParams) :
    ClientState × List Action :=
  match p.terminalId with
  | none => (s, respondActs s id RespResult.emptyObj)
  | some t =>
    match alget t s.terminals with
    | none => (s, respondActs s id RespResult.emptyObj)
    | some e =>
      (s, (if e.exitCode = none then [Action.sigtermed t] else [])
            ++ respondActs s id RespResult.emptyObj)

/-- `handleTerminalRelease` (client.ts:258-263): SIGTERM if still running,
delete the registry entry, respond with an empty object. -/
def handleTerminalRelease (s : ClientState) (id : Option JsonId) (p : MsgParams) :
    ClientState × List Action :=
  match p.terminalId with
  | none => (s, respondActs s id RespResult.emptyObj)
  | some t =>
    let killActs := match alget t s.terminals with
      | some e => if e.exitCode = none then [Action.sigtermed t] else []
      | none => []
    ({ s with terminals := aldel t s.terminals },
     killActs ++ respondActs s id RespResult.emptyObj)

/-- JS truthiness of the `method` field: absent or the empty string. -/
def methodIsFalsy : Option String → Bool
  | none => true
  | some s => s = ""

/-- The numeric view of an id: `Map<number>.get` misses on a string key. -/
def numId : Option JsonId → Option Nat
  | some (JsonId.num n) => some n
  | _ => none

/-- The pending-table half of the response branch: if id `n` is pending,
remove it and settle its promise — rejecting when a truthy `error`
member is present, resolving otherwise; an unknown id is ignored. -/
def settlePending (s : ClientState) (n : Nat) (m : AcpMessage) (pre : List Action) :
    ClientState × List Action :=
  if n ∈ s.pending then
    let s2 := { s with pending := s.pending.filter (fun j => j ≠ n) }
    match m.error with
    | some msg => settleNow s2 n (SettleKind.rejectedError msg) pre
    | none => settleNow s2 n (SettleKind.resolved m.result) pre
  else (s, pre)

/-- The response branch of `handleLine` (client.ts:169-184): a message
with an id and a falsy method.  If the id is a tracked prompt id the
mapping is removed and a turn-end event emitted; then the pending entry
(if any) is removed and settled; an unknown id is ignored. -/
def handleResponse (s : ClientState) (m : AcpMessage) : ClientState × List Action :=
  match numId m.id with
  | none => (s, [])
  | some n =>
    match alget n s.promptRequestIds with
    | some sid =>
      settlePending { s with promptRequestIds := aldel n s.promptRequestIds } n m
        [Action.emitTurnEnd sid]
    | none => settlePending s n m []

/-- `handleLine` (client.ts:127-195): drop blank and unparsable lines,
then dispatch on the method string in source order: permission, the five
terminal methods, the response branch (id present, method falsy), and
finally the `session/update` notification branch, which forwards an update
event only when both the session id and the update payload are truthy.
Anything else falls through and is dropped. -/
def handleLine (s : ClientState) (l : RawLine) : ClientState × List Action :=
  match l with
  | RawLine.blankLine => (s, [])
  | RawLine.unparsable _ => (s, [])
  | RawLine.parsed m =>
    if m.method = some "session/request_permission" then
      (s, [Action.emitPermission ((m.params.getD {}).sessionId) m.id])
    else if m.method = some "terminal/create" then
      handleTerminalCreate s m.id (m.params.getD {})
    else if m.method = some "terminal/output" then
      handleTerminalOutput s m.id (m.params.getD {})
    else if m.method = some "terminal/wait_for_exit" then
      handleTerminalWaitForExit s m.id (m.params.getD {})
    else if m.method = some "terminal/kill" then
      handleTerminalKill s m.id (m.params.getD {})
    else if m.method = some "terminal/release" then
      handleTerminalRelease s m.id (m.params.getD {})
    else if m.id.isSome && methodIsFalsy m.method then
      handleResponse s m
    else if m.method = some "session/update" && m.params.isSome then
      match (m.params.getD {}).sessionId, (m.params.getD {}).update with
      | some sid, some u => if sid = "" then (s, []) else (s, [Action.emitUpdate sid u])
      | _, _ => (s, [])
    else (s, [])

/-- Asynchronous occurrences driving the client: an inbound line, a call
to `request` (initialize / session control), a call to `prompt`, a request
timer firing, child-process stdout/stderr data, a child-process `close`
event, and the agent process's `close` / `error` events. -/
inductive Event where
  | line (l : RawLine)
  | controlRequest (method : String)
  | promptCall (sessionId : String)
  | timerFires (i : Nat)
  | termData (tid : String) (chunk : String)
  | termClose (tid : String) (code : Option Int)
  | procClose (code : Option Int)
  | procError (msg : String)
deriving DecidableEq

/-- One step of the client.  `controlRequest` mirrors `request`
(client.ts:106-115): insert the pending entry, then write and arm a 60 s
timer; when stdin is unwritable `send` throws inside the promise executor,
which rejects the awaitable and never arms the timer.  `promptCall`
mirrors `prompt` (client.ts:73-77): record the session mapping, write the
request, no pending entry and no timer.  `timerFires` is the `setTimeout`
callback.  `termClose` is the child `close` listener: record the exit
code, then the deferred wait-for-exit listeners respond with `code ?? 1`;
the event fires at most once per child.  `procClose` is the agent `close`
handler (client.ts:55-59): reject every still-pending awaitable and emit
the exit event.  `procError` is the agent `error` handler (client.ts:54):
it only re-emits the error. -/
def step (s : ClientState) (e : Event) : ClientState × List Action :=
  match e with
  | Event.line l => handleLine s l
  | Event.controlRequest m =>
    let id := s.nextId
    let s1 := { s with nextId := id + 1, pending := s.pending ++ [id] }
    if s.writable then
      ({ s1 with timers := s1.timers ++ [(id, m)] },
       [Action.wroteRequest id m, Action.armTimer id 60000])
    else
      settleNow s1 id SettleKind.rejectedSendThrow [Action.sendThrew "ACP process not writable"]
  | Event.promptCall sid =>
    let id := s.nextId
    let s1 := { s with nextId := id + 1, promptRequestIds := s.promptRequestIds ++ [(id, sid)] }
    if s.writable then (s1, [Action.wroteRequest id "session/prompt"])
    else (s1, [Action.sendThrew "ACP process not writable"])
  | Event.timerFires i =>
    match alget i s.timers with
    | none => (s, [])
    | some m =>
      let s1 := { s with timers := aldel i s.timers }
      if i ∈ s1.pending then
        settleNow { s1 with pending := s1.pending.filter (fun j => j ≠ i) } i
          (SettleKind.rejectedTimeout m) []
      else (s1, [])
  | Event.termData tid chunk =>
    match alget tid s.terminals with
    | some e =>
      if e.closed then (s, [])
      else ({ s with terminals := alupd tid (fun e0 => { e0 with output := e0.output ++ chunk }) s.terminals }, [])
    | none => (s, [])
  | Event.termClose tid code =>
    match alget tid s.terminals with
    | none => (s, [])
    | some e =>
      if e.closed then (s, [])
      else
        let close1 := fun (e0 : TermEntry) => { e0 with exitCode := code, closed := true, waiters := ([] : List (Option JsonId)) }
        ({ s with terminals := alupd tid close1 s.terminals },
         e.waiters.flatMap (fun w => respondActs s w (RespResult.exitRes (code.getD 1))))
  | Event.procClose code =>
    let fresh := s.pending.filter (fun i => i ∉ s.settledIds)
    ({ s with pending := [], settledIds := s.settledIds ++ fresh },
     fresh.map (fun i => Action.settle i (SettleKind.rejectedFailAll code))
       ++ [Action.emitExit code])
  | Event.procError msg => (s, [Action.emitError msg])

/-- Run a list of events from a state, collecting all actions in order. -/
def run (s : ClientState) (es : List Event) : ClientState × List Action :=
  match es with
  | [] => (s, [])
  | e :: rest =>
    let p := step s e
    let q := run p.1 rest
    (q.1, p.2 ++ q.2)

/-- Does this action settle the awaitable of correlation id `i`. -/
def isSettleFor (i : Nat) : Action → Bool
  | Action.settle j _ => j = i
  | _ => false

/-- Number of settlements of id `i` in an action list. -/
def countSettles (i : Nat) (acts : List Action) : Nat :=
  acts.countP (isSettleFor i)

/-- Does this action write a response whose id is `i`. -/
def isRespFor (i : JsonId) : Action → Bool
  | Action.wroteResponse (some j) _ => j = i
  | _ => false

/-- Number of responses written for id `i` in an action list. -/
def countResps (i : JsonId) (acts : List Action) : Nat :=
  acts.countP (isRespFor i)

/-- Does this action emit a turn-end event for session `sid`. -/
def isTurnEndFor (sid : String) : Action → Bool
  | Action.emitTurnEnd s0 => s0 = sid
  | _ => false

/-- A request message from the agent with the given id, method and params. -/
def reqMsg (id : JsonId) (method : String) (p : MsgParams) : AcpMessage :=
  { id := some id, method := some method, params := some p }

/-- A successful response message with numeric id `n`. -/
def respMsg (n : Nat) : AcpMessage :=
  { id := some (JsonId.num n), result := some "ok" }

/-- A `session/update` notification line for a session and payload. -/
def updLine (sid payload : String) : RawLine :=
  RawLine.parsed { method := some "session/update",
                   params := some { sessionId := some sid, update := some payload } }

/-- State well-formedness maintained by the client: the pending keys are
distinct and below `nextId` (Map keys are unique; ids come from the
monotone counter), every settled id is below `nextId`, and the timer keys
are distinct and below `nextId`. -/
def Inv (s : ClientState) : Prop :=
  s.pending.Nodup ∧
  (∀ i ∈ s.pending, i < s.nextId) ∧
  (∀ i ∈ s.settledIds, i < s.nextId) ∧
  (s.timers.map Prod.fst).Nodup ∧
  (∀ p ∈ s.timers, p.1 < s.nextId) ∧
  (∀ p ∈ s.promptRequestIds, p.1 < s.nextId)

/-- The deferred wait-for-exit listeners registered on the terminal a
params object addresses (empty when the handle is unknown). -/
def waitersOf (s : ClientState) (t? : Option String) : List (Option JsonId) :=
  match t?.bind (fun t => alget t s.terminals) with
  | some e => e.waiters
  | none => []

/-- A freshly started client with writable stdin and empty tables. -/
def exState : ClientState :=
  { writable := true, nextId := 1, pending := [], timers := [], settledIds := [],
    promptRequestIds := [], terminals := [], terminalCounter := 0 }

/-- A client mid-session: one pending control request (id 1, timer
armed), one outstanding prompt (id 2 for session s1). -/
def c8State : ClientState :=
  { exState with
    nextId := 5
    pending := [1]
    timers := [(1, "session/new")]
    promptRequestIds := [(2, "s1")] }

/-- A client with one terminal handle `term_1` whose process wrote
"hello" and exited with code 0. -/
def c4State : ClientState :=
  { exState with
    terminals := [("term_1", { output := "hello", exitCode := some 0, closed := true, waiters := [] })]
    terminalCounter := 1 }

/-- A client with one pending control request (id 3, timer armed). -/
def c6State : ClientState :=
  { exState with
    nextId := 4
    pending := [3]
    timers := [(3, "session/new")] }

/-- A client with a pending control request (id 1) and an outstanding
prompt (id 2 for session s1), five ids already allocated. -/
def c5State : ClientState :=
  { exState with
    nextId := 6
    pending := [1]
    timers := [(1, "session/load")]
    promptRequestIds := [(2, "s1")] }

/-- A client with one running terminal handle `term_1` (no output yet,
not exited, no deferred waiters). -/
def c3State : ClientState :=
  { exState with
    terminals := [("term_1", { output := "", exitCode := none, closed := false, waiters := [] })]
    terminalCounter := 1 }

/-- Structural effect of a dispatched inbound message on the correlation
machinery of state `s`: the id counter and timers are untouched, the
prompt map only shrinks, and either pending/settled are unchanged with no
settlement emitted, or one pending id is removed and settled at most
once (silently absorbed if its promise had settled before). -/
def StepSpec (s : ClientState) (res : ClientState × List Action) : Prop :=
  res.1.nextId = s.nextId ∧
  res.1.timers = s.timers ∧
  (∀ q ∈ res.1.promptRequestIds, q ∈ s.promptRequestIds) ∧
  ((res.1.pending = s.pending ∧ res.1.settledIds = s.settledIds ∧
    (∀ j, countSettles j res.2 = 0))
   ∨ (∃ n, n ∈ s.pending ∧
      res.1.pending = s.pending.filter (fun x => x ≠ n) ∧
      res.1.settledIds = (if n ∈ s.settledIds then s.settledIds else s.settledIds ++ [n]) ∧
      (∀ j, countSettles j res.2 = (if n = j ∧ n ∉ s.settledIds then 1 else 0))))

theorem alget_alset_self {α β : Type} [DecidableEq α] (k : α) (v : β) (l : List (α × β)) :
    alget k (alset k v l) = some v := by
  induction l with
  | nil => simp [alset, alget]
  | cons p rest ih =>
    obtain ⟨k', v'⟩ := p
    by_cases h : k' = k
    · simp [alset, h, alget]
    · simp [alset, h, alget, ih]

theorem alget_alupd_self {α β : Type} [DecidableEq α] (k : α) (f : β → β) (l : List (α × β)) :
    alget k (alupd k f l) = (alget k l).map f := by
  induction l with
  | nil => simp [alupd, alget]
  | cons p rest ih =>
    obtain ⟨k', v'⟩ := p
    by_cases h : k' = k
    · simp [alupd, alget, h]
    · simp [alupd, alget, h, ih]

theorem alget_aldel_self {α β : Type} [DecidableEq α] (k : α) (l : List (α × β)) :
    alget k (aldel k l) = none := by
  induction l with
  | nil => simp [aldel, alget]
  | cons p rest ih =>
    obtain ⟨k', v'⟩ := p
    by_cases h : k' = k
    · simpa [aldel, h, alget] using ih
    · simpa [aldel, h, alget] using ih

theorem alget_aldel_ne {α β : Type} [DecidableEq α] (k j : α) (l : List (α × β))
    (hij : j ≠ k) : alget j (aldel k l) = alget j l := by
  induction l with
  | nil => rfl
  | cons p rest ih =>
    obtain ⟨k', v'⟩ := p
    by_cases h : k' = k
    · subst h
      have hkj : k' ≠ j := fun hc => hij hc.symm
      simp [aldel, alget, hkj, ih]
    · by_cases hj : k' = j
      · subst hj
        simp [aldel, h, alget]
      · simp [aldel, h, alget, hj, ih]

theorem alget_eq_none_of_forall {α β : Type} [DecidableEq α] (k : α) (l : List (α × β))
    (h : ∀ p ∈ l, p.1 ≠ k) : alget k l = none := by
  induction l with
  | nil => rfl
  | cons p rest ih =>
    obtain ⟨k', v'⟩ := p
    have hk : k' ≠ k := h (k', v') (by simp)
    simp only [alget, if_neg hk]
    exact ih (fun q hq => h q (by simp [hq]))

theorem aldel_of_none {α β : Type} [DecidableEq α] (k : α) (l : List (α × β))
    (h : alget k l = none) : aldel k l = l := by
  induction l with
  | nil => rfl
  | cons p rest ih =>
    obtain ⟨k', v'⟩ := p
    by_cases hk : k' = k
    · simp [alget, hk] at h
    · simp only [alget, if_neg hk] at h
      simp [aldel, hk, ih h]

theorem alget_append_last {α β : Type} [DecidableEq α] (k : α) (v : β) (l : List (α × β))
    (h : alget k l = none) : alget k (l ++ [(k, v)]) = some v := by
  induction l with
  | nil => simp [alget]
  | cons p rest ih =>
    obtain ⟨k', v'⟩ := p
    by_cases hk : k' = k
    · simp [alget, hk] at h
    · simp only [alget, if_neg hk] at h
      simp only [List.cons_append, alget, if_neg hk]
      exact ih h

theorem run_nil (s : ClientState) : run s [] = (s, []) := rfl

theorem run_cons (s : ClientState) (e : Event) (es : List Event) :
    run s (e :: es) = ((run (step s e).1 es).1, (step s e).2 ++ (run (step s e).1 es).2) := rfl

theorem run_append (s : ClientState) (es1 es2 : List Event) :
    run s (es1 ++ es2)
      = ((run (run s es1).1 es2).1, (run s es1).2 ++ (run (run s es1).1 es2).2) := by
  induction es1 generalizing s with
  | nil => simp [run_nil, run]
  | cons e rest ih => simp [run_cons, ih, List.append_assoc]

/-- C1 counterexample: a server-initiated request for an unsupported
method (here `fs/read_text_file`, carrying correlation id 5, on a client
whose stdin is writable) falls through every branch of `handleLine`: the
client writes no response at all for that id — neither a result nor a
well-formed error response — refuting the claim that every
server-initiated request with an id receives exactly one response and
that unsupported methods receive an error response. -/
theorem unsupportedMethodGetsNoResponse :
    handleLine exState (RawLine.parsed (reqMsg (JsonId.num 5) "fs/read_text_file" {}))
      = (exState, []) := by decide

/-- C1 amended: each of `terminal/create`, `terminal/output`,
`terminal/kill` and `terminal/release` is answered with exactly one
response for its correlation id (when stdin is writable);
`terminal/wait_for_exit` produces exactly one of an immediate response or
a newly registered deferred close-listener reply; a
`session/request_permission` request is not answered inside the read
loop — it only emits a permission event (the reply comes only from a
later `resolvePermission` call); and a request for an unsupported method
receives no response at all and changes no state. -/
theorem serverRequestResponseDiscipline (s : ClientState) (hw : s.writable = true)
    (id : JsonId) (p : MsgParams) (m : String)
    (hm : m ∉ ["session/request_permission", "terminal/create", "terminal/output",
               "terminal/wait_for_exit", "terminal/kill", "terminal/release", "session/update"])
    (hm0 : m ≠ "") :
    countResps id (handleLine s (RawLine.parsed (reqMsg id "terminal/create" p))).2 = 1 ∧
    countResps id (handleLine s (RawLine.parsed (reqMsg id "terminal/output" p))).2 = 1 ∧
    countResps id (handleLine s (RawLine.parsed (reqMsg id "terminal/kill" p))).2 = 1 ∧
    countResps id (handleLine s (RawLine.parsed (reqMsg id "terminal/release" p))).2 = 1 ∧
    countResps id (handleLine s (RawLine.parsed (reqMsg id "terminal/wait_for_exit" p))).2
      + ((waitersOf (handleLine s (RawLine.parsed (reqMsg id "terminal/wait_for_exit" p))).1 p.terminalId).length
         - (waitersOf s p.terminalId).length) = 1 ∧
    handleLine s (RawLine.parsed (reqMsg id "session/request_permission" p))
      = (s, [Action.emitPermission p.sessionId (some id)]) ∧
    handleLine s (RawLine.parsed (reqMsg id m p)) = (s, []) := by
  simp only [List.mem_cons, List.mem_singleton, not_or] at hm
  obtain ⟨h1, h2, h3, h4, h5, h6, h7, -⟩ := hm
  refine ⟨?_, ?_, ?_, ?_, ?_, ?_, ?_⟩
  · simp [handleLine, reqMsg, handleTerminalCreate, countResps, isRespFor, respondActs, hw,
      List.countP_cons]
  · simp only [handleLine, reqMsg]
    simp only [Option.some.injEq, String.reduceEq, if_false, if_true, reduceIte]
    simp only [handleTerminalOutput]
    split <;> simp [countResps, isRespFor, respondActs, hw]
  · simp only [handleLine, reqMsg]
    simp only [Option.some.injEq, String.reduceEq, if_false, if_true, reduceIte]
    simp only [handleTerminalKill]
    split <;> try split
    all_goals simp [countResps, isRespFor, respondActs, hw, List.countP_append, List.countP_cons]
  · simp only [handleLine, reqMsg]
    simp only [Option.some.injEq, String.reduceEq, if_false, if_true, reduceIte]
    simp only [handleTerminalRelease]
    split
    · simp [countResps, isRespFor, respondActs, hw]
    · split <;> simp [countResps, isRespFor, respondActs, hw, List.countP_append]
  · simp only [handleLine, reqMsg]
    simp only [Option.some.injEq, String.reduceEq, if_false, if_true, reduceIte]
    simp only [handleTerminalWaitForExit]
    rcases hpt : p.terminalId with - | t
    · simp [hpt, countResps, isRespFor, respondActs, hw, waitersOf]
    · rcases hgt : alget t s.terminals with - | e
      · simp [hpt, hgt, countResps, isRespFor, respondActs, hw, waitersOf]
      · rcases hec : e.exitCode with - | k
        · simp [hpt, hgt, hec, countResps, isRespFor, respondActs, hw, waitersOf,
            alget_alupd_self]
        · simp [hpt, hgt, hec, countResps, isRespFor, respondActs, hw, waitersOf]
  · simp [handleLine, reqMsg]
  · simp [handleLine, reqMsg, h1, h2, h3, h4, h5, h6, h7, methodIsFalsy, hm0]

/-- C1 witness: the amended discipline holds at a concrete state; in
particular a concrete unsupported request is observed to be dropped. -/
theorem serverRequestResponseDiscipline_witness :
    handleLine exState (RawLine.parsed (reqMsg (JsonId.num 3) "session/set_mode" {}))
      = (exState, []) ∧
    countResps (JsonId.num 3)
      (handleLine exState (RawLine.parsed (reqMsg (JsonId.num 3) "terminal/create" {}))).2 = 1 :=
  ⟨(serverRequestResponseDiscipline exState rfl (JsonId.num 3) {} "session/set_mode"
      (by decide) (by decide)).2.2.2.2.2.2,
   (serverRequestResponseDiscipline exState rfl (JsonId.num 3) {} "session/set_mode"
      (by decide) (by decide)).1⟩

/-- C8: blank lines, unparsable lines, and responses whose id matches
neither a tracked prompt id nor a pending entry are all dropped: the
handler returns without raising, with the state (pending table, terminal
registry and all) unchanged and no observable action. -/
theorem malformedLinesIgnored (s : ClientState) (raw : String) (m : AcpMessage) (n : Nat)
    (hid : m.id = some (JsonId.num n)) (hm : m.method = none)
    (hp : alget n s.promptRequestIds = none) (hpend : n ∉ s.pending) :
    handleLine s RawLine.blankLine = (s, []) ∧
    handleLine s (RawLine.unparsable raw) = (s, []) ∧
    handleLine s (RawLine.parsed m) = (s, []) := by
  refine ⟨rfl, rfl, ?_⟩
  simp [handleLine, hm, hid, handleResponse, settlePending, numId, hp, hpend, methodIsFalsy]

/-- C8 witness: concrete blank, junk, and unknown-id response lines are
dropped on a concrete mid-session state. -/
theorem malformedLinesIgnored_witness :
    handleLine c8State RawLine.blankLine = (c8State, []) ∧
    handleLine c8State (RawLine.unparsable "agent diagnostic text") = (c8State, []) ∧
    handleLine c8State (RawLine.parsed { id := some (JsonId.num 3), result := some "ok" })
      = (c8State, []) :=
  malformedLinesIgnored c8State "agent diagnostic text"
    { id := some (JsonId.num 3), result := some "ok" } 3 rfl rfl (by decide) (by decide)

/-- C9: `terminal/create` registers a fresh handle with an empty buffer
and null exit code, an immediately following `terminal/output` for that
handle is answered with the empty buffer and no exit status (not an
error), and `terminal/output` is always answered synchronously with
exactly one response while leaving the state unchanged — it never blocks
waiting for output or exit. -/
theorem freshTerminalOutputEmpty (s : ClientState) (hw : s.writable = true)
    (idc ido : JsonId) (pc : MsgParams)
    (s2 : ClientState) (h2w : s2.writable = true) (id2 : JsonId) (p2 : MsgParams) :
    alget ("term_" ++ toString (s.terminalCounter + 1))
        ((handleLine s (RawLine.parsed (reqMsg idc "terminal/create" pc))).1).terminals
      = some { output := "", exitCode := none, closed := false, waiters := [] } ∧
    handleLine (handleLine s (RawLine.parsed (reqMsg idc "terminal/create" pc))).1
        (RawLine.parsed (reqMsg ido "terminal/output"
          { terminalId := some ("term_" ++ toString (s.terminalCounter + 1)) }))
      = ((handleLine s (RawLine.parsed (reqMsg idc "terminal/create" pc))).1,
         [Action.wroteResponse (some ido) (RespResult.outputRes "" false none)]) ∧
    (handleTerminalOutput s2 (some id2) p2).1 = s2 ∧
    countResps id2 (handleTerminalOutput s2 (some id2) p2).2 = 1 := by
  refine ⟨?_, ?_, ?_, ?_⟩
  · simp [handleLine, reqMsg, handleTerminalCreate, alget_alset_self]
  · simp [handleLine, reqMsg, handleTerminalCreate, handleTerminalOutput, alget_alset_self,
      respondActs, hw]
  · simp only [handleTerminalOutput]
    split <;> rfl
  · simp only [handleTerminalOutput]
    split <;> simp [countResps, isRespFor, respondActs, h2w]

/-- C9 witness: create then output on the fresh handle at a concrete
state. -/
theorem freshTerminalOutputEmpty_witness :
    handleLine (handleLine exState (RawLine.parsed (reqMsg (JsonId.num 10) "terminal/create"
        { command := some "sleep 5" }))).1
      (RawLine.parsed (reqMsg (JsonId.num 11) "terminal/output" { terminalId := some "term_1" }))
      = ((handleLine exState (RawLine.parsed (reqMsg (JsonId.num 10) "terminal/create"
            { command := some "sleep 5" }))).1,
         [Action.wroteResponse (some (JsonId.num 11)) (RespResult.outputRes "" false none)]) :=
  (freshTerminalOutputEmpty exState rfl (JsonId.num 10) (JsonId.num 11)
    { command := some "sleep 5" } exState rfl (JsonId.num 11) {}).2.1

/-- C10: with unwritable stdin, `respond` (and so every server-request
reply, including `resolvePermission` and terminal replies) is silently
dropped — it returns without writing and without raising — whereas `send`
for a new client-initiated request throws "ACP process not writable"
instead of writing; with writable stdin `send` writes the framed
request. -/
theorem unwritableStdinBehavior (s : ClientState) (hw : s.writable = false)
    (id : JsonId) (r : RespResult) (optId : String) (n : Nat) (method : String) (p : MsgParams)
    (s2 : ClientState) (h2 : s2.writable = true) :
    respondActs s (some id) r = [] ∧
    resolvePermission s id optId = [] ∧
    (handleLine s (RawLine.parsed (reqMsg id "terminal/output" p))).2 = [] ∧
    sendReq s n method = Except.error "ACP process not writable" ∧
    sendReq s2 n method = Except.ok [Action.wroteRequest n method] := by
  refine ⟨?_, ?_, ?_, ?_, ?_⟩
  · simp [respondActs, hw]
  · simp [resolvePermission, respondActs, hw]
  · simp only [handleLine, reqMsg]
    simp only [Option.some.injEq, String.reduceEq, if_false, if_true, reduceIte]
    simp only [handleTerminalOutput]
    split <;> simp [respondActs, hw]
  · simp [sendReq, hw]
  · simp [sendReq, h2]

/-- C10 witness: the unwritable behaviors at a concrete state. -/
theorem unwritableStdinBehavior_witness :
    respondActs { exState with writable := false } (some (JsonId.num 4)) RespResult.emptyObj = [] ∧
    resolvePermission { exState with writable := false } (JsonId.num 4) "allow-once" = [] ∧
    (handleLine { exState with writable := false }
      (RawLine.parsed (reqMsg (JsonId.num 4) "terminal/output" {}))).2 = [] ∧
    sendReq { exState with writable := false } 7 "session/new"
      = Except.error "ACP process not writable" ∧
    sendReq exState 7 "session/new" = Except.ok [Action.wroteRequest 7 "session/new"] :=
  unwritableStdinBehavior { exState with writable := false } rfl (JsonId.num 4)
    RespResult.emptyObj "allow-once" 7 "session/new" {} exState rfl

/-- C4 counterexample: after a `terminal/release` for `term_1` (whose
buffer held "hello"), a subsequent `terminal/output` for `term_1` is
answered with an ordinary buffer result `{output := "", truncated :=
false}` carrying no error and no not-found marker — byte-for-byte the
same result a live, never-written terminal receives — refuting the claim
that the post-release response is a "not found" result rather than a
buffer. -/
theorem releasedHandleOutputIsEmptyBuffer :
    (run c4State
      [Event.line (RawLine.parsed (reqMsg (JsonId.num 7) "terminal/release" { terminalId := some "term_1" })),
       Event.line (RawLine.parsed (reqMsg (JsonId.num 8) "terminal/output" { terminalId := some "term_1" }))]).2
      = [Action.wroteResponse (some (JsonId.num 7)) RespResult.emptyObj,
         Action.wroteResponse (some (JsonId.num 8)) (RespResult.outputRes "" false none)] ∧
    (handleLine
        (handleLine exState (RawLine.parsed (reqMsg (JsonId.num 5) "terminal/create" {}))).1
        (RawLine.parsed (reqMsg (JsonId.num 8) "terminal/output" { terminalId := some "term_1" }))).2
      = [Action.wroteResponse (some (JsonId.num 8)) (RespResult.outputRes "" false none)] := by
  decide

/-- C4 amended: `terminal/release` forgets the handle; a subsequent (or
any unknown-handle) `terminal/output` is answered with an empty buffer
and no exit status — the same shape as a live empty terminal's response,
with no distinguishable not-found marker — and `wait_for_exit`, `kill`
and `release` on an unknown handle also each respond exactly once
rather than crashing. -/
theorem releasedHandleDiscipline (s1 : ClientState) (t1 : String) (id : JsonId)
    (s : ClientState) (hw : s.writable = true) (t : String)
    (hnone : alget t s.terminals = none) :
    alget t1 ((handleLine s1 (RawLine.parsed
        (reqMsg id "terminal/release" { terminalId := some t1 }))).1).terminals = none ∧
    handleLine s (RawLine.parsed (reqMsg id "terminal/output" { terminalId := some t }))
      = (s, [Action.wroteResponse (some id) (RespResult.outputRes "" false none)]) ∧
    handleLine s (RawLine.parsed (reqMsg id "terminal/wait_for_exit" { terminalId := some t }))
      = (s, [Action.wroteResponse (some id) (RespResult.exitRes 1)]) ∧
    handleLine s (RawLine.parsed (reqMsg id "terminal/kill" { terminalId := some t }))
      = (s, [Action.wroteResponse (some id) RespResult.emptyObj]) ∧
    handleLine s (RawLine.parsed (reqMsg id "terminal/release" { terminalId := some t }))
      = (s, [Action.wroteResponse (some id) RespResult.emptyObj]) := by
  have hdel := aldel_of_none t s.terminals hnone
  obtain ⟨w, ni, pe, ti, se, pr, te, tc⟩ := s
  simp only at hw hnone hdel
  subst hw
  refine ⟨?_, ?_, ?_, ?_, ?_⟩
  · simp [handleLine, reqMsg, handleTerminalRelease, alget_aldel_self]
  · simp [handleLine, reqMsg, handleTerminalOutput, hnone, respondActs]
  · simp [handleLine, reqMsg, handleTerminalWaitForExit, hnone, respondActs]
  · simp [handleLine, reqMsg, handleTerminalKill, hnone, respondActs]
  · simp [handleLine, reqMsg, handleTerminalRelease, hnone, respondActs, hdel]

/-- C4 witness: release of a live concrete handle forgets it, and
unknown-handle operations respond on a concrete empty state. -/
theorem releasedHandleDiscipline_witness :
    alget "term_1" ((handleLine c4State (RawLine.parsed
        (reqMsg (JsonId.num 7) "terminal/release" { terminalId := some "term_1" }))).1).terminals
      = none ∧
    handleLine exState (RawLine.parsed
        (reqMsg (JsonId.num 7) "terminal/output" { terminalId := some "term_1" }))
      = (exState, [Action.wroteResponse (some (JsonId.num 7)) (RespResult.outputRes "" false none)]) :=
  ⟨(releasedHandleDiscipline c4State "term_1" (JsonId.num 7) exState rfl "term_1" (by decide)).1,
   (releasedHandleDiscipline c4State "term_1" (JsonId.num 7) exState rfl "term_1" (by decide)).2.1⟩

/-- C6 counterexample: a process `error` event on a client with pending
id 3 only re-emits an error event: the pending table keeps its entry,
nothing is rejected, and no exit event is emitted — refuting the claim
that a stream error (as opposed to a close) rejects every pending entry
and emits the connection-lost event. -/
theorem procErrorLeavesPending :
    run c6State [Event.procError "read ECONNRESET"]
      = (c6State, [Action.emitError "read ECONNRESET"]) ∧
    countSettles 3 (run c6State [Event.procError "read ECONNRESET"]).2 = 0 := by
  decide

/-- C6 amended: when the agent process closes, every still-pending
(unsettled) entry is rejected with the close reason, the pending table is
emptied, and an exit event is emitted; a process `error` event instead
only re-emits an error event and leaves the pending table untouched. -/
theorem procCloseRejectsAllPending (s : ClientState) (code : Option Int) (i : Nat)
    (hi : i ∈ s.pending) (hs : i ∉ s.settledIds) (msg : String) :
    (step s (Event.procClose code)).1.pending = [] ∧
    Action.settle i (SettleKind.rejectedFailAll code) ∈ (step s (Event.procClose code)).2 ∧
    Action.emitExit code ∈ (step s (Event.procClose code)).2 ∧
    step s (Event.procError msg) = (s, [Action.emitError msg]) := by
  refine ⟨rfl, ?_, ?_, rfl⟩
  · simp only [step]
    apply List.mem_append_left
    exact List.mem_map_of_mem _ (List.mem_filter.mpr ⟨hi, by simp [hs]⟩)
  · simp only [step]
    apply List.mem_append_right
    simp

/-- C6 witness: the close rejection at a concrete one-pending state. -/
theorem procCloseRejectsAllPending_witness :
    (step c6State (Event.procClose (some 1))).1.pending = [] ∧
    Action.settle 3 (SettleKind.rejectedFailAll (some 1))
      ∈ (step c6State (Event.procClose (some 1))).2 :=
  ⟨(procCloseRejectsAllPending c6State (some 1) 3 (by decide) (by decide) "x").1,
   (procCloseRejectsAllPending c6State (some 1) 3 (by decide) (by decide) "x").2.1⟩

/-- A response line with a tracked prompt id and no pending entry removes
the session mapping and emits exactly the turn-end event. -/
theorem handleLine_promptResponse (s : ClientState) (n : Nat) (sid : String)
    (hpr : alget n s.promptRequestIds = some sid) (hnp : n ∉ s.pending) :
    handleLine s (RawLine.parsed (respMsg n))
      = ({ s with promptRequestIds := aldel n s.promptRequestIds }, [Action.emitTurnEnd sid]) := by
  simp [handleLine, respMsg, handleResponse, settlePending, numId, hpr, hnp, methodIsFalsy]

/-- C5: a client-initiated control request installs a pending entry and
arms a 60000 ms timer; a fired timer on a still-unanswered control
request rejects it locally and removes it from the pending table; a
prompt allocates its correlation id with no pending entry and no timer,
recording only the session mapping; and the prompt's completion is
signaled by the turn-end event emitted when its response line arrives,
not by any timeout. -/
theorem controlTimeoutPromptExempt (s : ClientState) (hInv : Inv s) (hw : s.writable = true)
    (m sid : String) (i : Nat) (tm : String)
    (hti : alget i s.timers = some tm) (hip : i ∈ s.pending) (his : i ∉ s.settledIds)
    (n : Nat) (sid2 : String)
    (hpr : alget n s.promptRequestIds = some sid2) (hnp : n ∉ s.pending) :
    (step s (Event.controlRequest m)).2
      = [Action.wroteRequest s.nextId m, Action.armTimer s.nextId 60000] ∧
    s.nextId ∈ (step s (Event.controlRequest m)).1.pending ∧
    alget s.nextId (step s (Event.controlRequest m)).1.timers = some m ∧
    (step s (Event.timerFires i)).2 = [Action.settle i (SettleKind.rejectedTimeout tm)] ∧
    i ∉ (step s (Event.timerFires i)).1.pending ∧
    (step s (Event.promptCall sid)).2 = [Action.wroteRequest s.nextId "session/prompt"] ∧
    s.nextId ∉ (step s (Event.promptCall sid)).1.pending ∧
    alget s.nextId (step s (Event.promptCall sid)).1.timers = none ∧
    alget s.nextId (step s (Event.promptCall sid)).1.promptRequestIds = some sid ∧
    handleLine s (RawLine.parsed (respMsg n))
      = ({ s with promptRequestIds := aldel n s.promptRequestIds }, [Action.emitTurnEnd sid2]) := by
  obtain ⟨-, hpb, -, -, htb, hqb⟩ := hInv
  have htnone : alget s.nextId s.timers = none :=
    alget_eq_none_of_forall _ _ (fun p hp => Nat.ne_of_lt (htb p hp))
  have hqnone : alget s.nextId s.promptRequestIds = none :=
    alget_eq_none_of_forall _ _ (fun p hp => Nat.ne_of_lt (hqb p hp))
  refine ⟨?_, ?_, ?_, ?_, ?_, ?_, ?_, ?_, ?_, ?_⟩
  · simp [step, hw]
  · simp [step, hw]
  · simp only [step, hw, if_true]
    exact alget_append_last _ _ _ htnone
  · simp [step, hti, hip, his, settleNow]
  · simp [step, hti, hip, his, settleNow]
  · simp [step, hw]
  · simp only [step, hw, if_true]
    exact fun hc => Nat.lt_irrefl _ (hpb _ hc)
  · simpa [step, hw] using htnone
  · simp only [step, hw, if_true]
    exact alget_append_last _ _ _ hqnone
  · exact handleLine_promptResponse s n sid2 hpr hnp

/-- C5 witness: the control/prompt timeout split at a concrete state. -/
theorem controlTimeoutPromptExempt_witness :
    (step c5State (Event.controlRequest "session/new")).2
      = [Action.wroteRequest 6 "session/new", Action.armTimer 6 60000] ∧
    (step c5State (Event.timerFires 1)).2
      = [Action.settle 1 (SettleKind.rejectedTimeout "session/load")] ∧
    (step c5State (Event.promptCall "s9")).2 = [Action.wroteRequest 6 "session/prompt"] ∧
    alget 6 (step c5State (Event.promptCall "s9")).1.timers = none :=
  ⟨(controlTimeoutPromptExempt c5State (by simp only [Inv]; decide) rfl "session/new" "s9" 1 "session/load"
      (by decide) (by decide) (by decide) 2 "s1" (by decide) (by decide)).1,
   (controlTimeoutPromptExempt c5State (by simp only [Inv]; decide) rfl "session/new" "s9" 1 "session/load"
      (by decide) (by decide) (by decide) 2 "s1" (by decide) (by decide)).2.2.2.1,
   (controlTimeoutPromptExempt c5State (by simp only [Inv]; decide) rfl "session/new" "s9" 1 "session/load"
      (by decide) (by decide) (by decide) 2 "s1" (by decide) (by decide)).2.2.2.2.2.1,
   (controlTimeoutPromptExempt c5State (by simp only [Inv]; decide) rfl "session/new" "s9" 1 "session/load"
      (by decide) (by decide) (by decide) 2 "s1" (by decide) (by decide)).2.2.2.2.2.2.2.1⟩

/-- C3 counterexample: when the child of `term_1` is killed by a signal
its `close` event carries a null code, so the recorded exit code stays
null.  A `terminal/wait_for_exit` issued after that exit is not answered
immediately with the recorded code — it is never answered at all, since
the `close` listener it registers on the already-dead child never fires —
while a `wait_for_exit` issued before the exit was answered with
`code ?? 1`, i.e. exit code 1.  This refutes both halves of the claim for
an already-terminated process with a null exit code. -/
theorem nullExitCodeWaitNeverAnswered :
    (run c3State [Event.termClose "term_1" none]).1.terminals
      = [("term_1", { output := "", exitCode := none, closed := true, waiters := [] })] ∧
    (run c3State
      [Event.termClose "term_1" none,
       Event.line (RawLine.parsed (reqMsg (JsonId.num 9) "terminal/wait_for_exit" { terminalId := some "term_1" })),
       Event.termClose "term_1" none]).2 = [] ∧
    (run c3State
      [Event.line (RawLine.parsed (reqMsg (JsonId.num 9) "terminal/wait_for_exit" { terminalId := some "term_1" })),
       Event.termClose "term_1" none]).2
      = [Action.wroteResponse (some (JsonId.num 9)) (RespResult.exitRes 1)] := by
  decide

/-- C3 amended: for a terminal whose process terminated with a non-null
exit code the recorded code is returned immediately by wait_for_exit, and
a wait issued before the exit and one issued after it are answered with
that same code; when the process closes with a null code, a wait issued
before the close is answered with exit code 1 and one issued after the
close is never answered. -/
theorem waitForExitExitCodeDiscipline (s : ClientState) (hw : s.writable = true)
    (rid n1 n2 : JsonId)
    (t1 : String) (e1 : TermEntry) (k1 : Int)
    (ht1 : alget t1 s.terminals = some e1) (he1 : e1.exitCode = some k1)
    (t2 : String) (e2 : TermEntry) (k2 : Int)
    (ht2 : alget t2 s.terminals = some e2) (hrun : e2.exitCode = none)
    (hcl : e2.closed = false) (hwtr : e2.waiters = []) :
    handleLine s (RawLine.parsed (reqMsg rid "terminal/wait_for_exit" { terminalId := some t1 }))
      = (s, [Action.wroteResponse (some rid) (RespResult.exitRes k1)]) ∧
    (run s
      [Event.line (RawLine.parsed (reqMsg n1 "terminal/wait_for_exit" { terminalId := some t2 })),
       Event.termClose t2 (some k2),
       Event.line (RawLine.parsed (reqMsg n2 "terminal/wait_for_exit" { terminalId := some t2 }))]).2
      = [Action.wroteResponse (some n1) (RespResult.exitRes k2),
         Action.wroteResponse (some n2) (RespResult.exitRes k2)] := by
  constructor
  · simp [handleLine, reqMsg, handleTerminalWaitForExit, ht1, he1, respondActs, hw]
  · simp [run, step, handleLine, reqMsg, handleTerminalWaitForExit, ht2, hrun, hcl, hwtr,
      alget_alupd_self, respondActs, hw]

/-- C3 witness: the discipline at a concrete two-terminal state. -/
theorem waitForExitExitCodeDiscipline_witness :
    handleLine { c3State with
        terminals := ("t0", { output := "x", exitCode := some 0, closed := true, waiters := [] })
          :: c3State.terminals }
      (RawLine.parsed (reqMsg (JsonId.num 4) "terminal/wait_for_exit" { terminalId := some "t0" }))
      = ({ c3State with
            terminals := ("t0", { output := "x", exitCode := some 0, closed := true, waiters := [] })
              :: c3State.terminals },
         [Action.wroteResponse (some (JsonId.num 4)) (RespResult.exitRes 0)]) ∧
    (run { c3State with
        terminals := ("t0", { output := "x", exitCode := some 0, closed := true, waiters := [] })
          :: c3State.terminals }
      [Event.line (RawLine.parsed (reqMsg (JsonId.num 5) "terminal/wait_for_exit" { terminalId := some "term_1" })),
       Event.termClose "term_1" (some 7),
       Event.line (RawLine.parsed (reqMsg (JsonId.num 6) "terminal/wait_for_exit" { terminalId := some "term_1" }))]).2
      = [Action.wroteResponse (some (JsonId.num 5)) (RespResult.exitRes 7),
         Action.wroteResponse (some (JsonId.num 6)) (RespResult.exitRes 7)] :=
  waitForExitExitCodeDiscipline
    { c3State with
      terminals := ("t0", { output := "x", exitCode := some 0, closed := true, waiters := [] })
        :: c3State.terminals }
    rfl (JsonId.num 4) (JsonId.num 5) (JsonId.num 6)
    "t0" { output := "x", exitCode := some 0, closed := true, waiters := [] } 0 (by decide) rfl
    "term_1" { output := "", exitCode := none, closed := false, waiters := [] } 7 (by decide) rfl
    rfl rfl

/-- Forwarding of a `session/update` notification line: state unchanged,
one update event (for a truthy session id). -/
theorem handleLine_updLine (s : ClientState) (sid payload : String) (h : sid ≠ "") :
    handleLine s (updLine sid payload) = (s, [Action.emitUpdate sid payload]) := by
  simp [handleLine, updLine, methodIsFalsy, h]

/-- Running a list of update notification lines leaves the state unchanged
and emits the update events in wire order. -/
theorem run_updates (s : ClientState) (us : List (String × String))
    (h : ∀ q ∈ us, q.1 ≠ "") :
    run s (us.map (fun q => Event.line (updLine q.1 q.2)))
      = (s, us.map (fun q => Action.emitUpdate q.1 q.2)) := by
  induction us with
  | nil => rfl
  | cons q rest ih =>
    have h1 : q.1 ≠ "" := h q (by simp)
    have h2 : ∀ r ∈ rest, r.1 ≠ "" := fun r hr => h r (by simp [hr])
    simp [run_cons, step, handleLine_updLine s q.1 q.2 h1, ih h2]

/-- C7: for a tracked prompt id n bound to session sid, a trace of
session/update notification lines followed by the response line for n
emits exactly the update events in wire order and then one turn-end event
for sid; the prompt mapping is removed, so the turn-end count for sid in
the trace is exactly one. -/
theorem promptTurnEndOrdering (s : ClientState) (n : Nat) (sid : String)
    (hpr : alget n s.promptRequestIds = some sid) (hnp : n ∉ s.pending)
    (us : List (String × String)) (hus : ∀ q ∈ us, q.1 ≠ "") :
    (run s (us.map (fun q => Event.line (updLine q.1 q.2))
            ++ [Event.line (RawLine.parsed (respMsg n))])).2
      = us.map (fun q => Action.emitUpdate q.1 q.2) ++ [Action.emitTurnEnd sid] ∧
    alget n (run s (us.map (fun q => Event.line (updLine q.1 q.2))
            ++ [Event.line (RawLine.parsed (respMsg n))])).1.promptRequestIds = none ∧
    (run s (us.map (fun q => Event.line (updLine q.1 q.2))
            ++ [Event.line (RawLine.parsed (respMsg n))])).2.countP (isTurnEndFor sid) = 1 := by
  have hupd := run_updates s us hus
  have hresp := handleLine_promptResponse s n sid hpr hnp
  have hmain : run s (us.map (fun q => Event.line (updLine q.1 q.2))
            ++ [Event.line (RawLine.parsed (respMsg n))])
      = ({ s with promptRequestIds := aldel n s.promptRequestIds },
         us.map (fun q => Action.emitUpdate q.1 q.2) ++ [Action.emitTurnEnd sid]) := by
    rw [run_append, hupd]
    simp [run_cons, run_nil, step, hresp]
  refine ⟨by rw [hmain], ?_, ?_⟩
  · rw [hmain]
    exact alget_aldel_self n s.promptRequestIds
  · rw [hmain]
    simp only [List.countP_append]
    have h0 : (us.map (fun q => Action.emitUpdate q.1 q.2)).countP (isTurnEndFor sid) = 0 := by
      refine List.countP_eq_zero.mpr ?_
      intro a ha
      obtain ⟨q, -, rfl⟩ := List.mem_map.mp ha
      simp [isTurnEndFor]
    simp [h0, isTurnEndFor]

/-- C7 witness: the spec's scenario — prompt id 7 for session s1, two
updates then the response — at a concrete state. -/
theorem promptTurnEndOrdering_witness :
    (run { exState with nextId := 8, promptRequestIds := [(7, "s1")] }
      ([("s1", "chunk1"), ("s1", "chunk2")].map (fun q => Event.line (updLine q.1 q.2))
        ++ [Event.line (RawLine.parsed (respMsg 7))])).2
      = [Action.emitUpdate "s1" "chunk1", Action.emitUpdate "s1" "chunk2",
         Action.emitTurnEnd "s1"] :=
  (promptTurnEndOrdering { exState with nextId := 8, promptRequestIds := [(7, "s1")] }
    7 "s1" (by decide) (by decide) [("s1", "chunk1"), ("s1", "chunk2")] (by decide)).1

theorem countSettles_append (j : Nat) (l1 l2 : List Action) :
    countSettles j (l1 ++ l2) = countSettles j l1 + countSettles j l2 :=
  List.countP_append _ _ _

theorem countSettles_respondActs (j : Nat) (s : ClientState) (id : Option JsonId)
    (r : RespResult) : countSettles j (respondActs s id r) = 0 := by
  simp only [countSettles, respondActs]
  split <;> simp [isSettleFor]

theorem countSettles_flatMapRespond (j : Nat) (s : ClientState) (r : RespResult)
    (ws : List (Option JsonId)) :
    countSettles j (ws.flatMap (fun w => respondActs s w r)) = 0 := by
  induction ws with
  | nil => rfl
  | cons w rest ih =>
    simp only [List.flatMap_cons]
    rw [countSettles_append, countSettles_respondActs, ih]

theorem settleNow_fst (s : ClientState) (n : Nat) (k : SettleKind) (pre : List Action) :
    (settleNow s n k pre).1
      = { s with settledIds := if n ∈ s.settledIds then s.settledIds else s.settledIds ++ [n] } := by
  simp only [settleNow]
  split <;> simp_all

theorem settleNow_snd (s : ClientState) (n : Nat) (k : SettleKind) (pre : List Action) :
    (settleNow s n k pre).2
      = if n ∈ s.settledIds then pre else pre ++ [Action.settle n k] := by
  simp only [settleNow]
  split <;> simp_all

theorem countSettles_settleNow (j : Nat) (s : ClientState) (n : Nat) (k : SettleKind)
    (pre : List Action) :
    countSettles j (settleNow s n k pre).2
      = countSettles j pre + (if n = j ∧ n ∉ s.settledIds then 1 else 0) := by
  rw [settleNow_snd]
  by_cases h : n ∈ s.settledIds
  · simp [h]
  · rw [if_neg h]
    rw [countSettles_append]
    by_cases hj : n = j
    · subst hj
      simp [countSettles, isSettleFor, h]
    · simp [countSettles, isSettleFor, hj, h]

theorem mem_aldel {α β : Type} [DecidableEq α] (k : α) (q : α × β) (l : List (α × β))
    (h : q ∈ aldel k l) : q ∈ l := by
  induction l with
  | nil => simpa [aldel] using h
  | cons p rest ih =>
    obtain ⟨k', v'⟩ := p
    by_cases hk : k' = k
    · simp only [aldel, if_pos hk] at h
      exact List.mem_cons_of_mem _ (ih h)
    · simp only [aldel, if_neg hk, List.mem_cons] at h
      rcases h with h | h
      · exact h ▸ List.mem_cons_self _ _
      · exact List.mem_cons_of_mem _ (ih h)

theorem alget_append_left {α β : Type} [DecidableEq α] (k : α) (v : β) (l l2 : List (α × β))
    (h : alget k l = some v) : alget k (l ++ l2) = some v := by
  induction l with
  | nil => simp [alget] at h
  | cons p rest ih =>
    obtain ⟨k', v'⟩ := p
    by_cases hk : k' = k
    · simp only [alget, if_pos hk] at h ⊢
      exact h
    · simp only [alget, if_neg hk] at h ⊢
      exact ih h

theorem countP_eq_le_one_of_nodup (j : Nat) (l : List Nat) (h : l.Nodup) :
    l.countP (fun x => decide (x = j)) ≤ 1 := by
  induction l with
  | nil => simp
  | cons a rest ih =>
    rw [List.countP_cons]
    rcases List.nodup_cons.mp h with ⟨ha, hrest⟩
    by_cases hj : a = j
    · subst hj
      have h0 : rest.countP (fun x => decide (x = a)) = 0 :=
        List.countP_eq_zero.mpr (fun x hx => by simp; exact fun hc => ha (hc ▸ hx))
      simp [h0]
    · simp only [hj]
      simpa using ih hrest

theorem countSettles_cons (j : Nat) (a : Action) (l : List Action) :
    countSettles j (a :: l) = countSettles j l + (if isSettleFor j a then 1 else 0) :=
  List.countP_cons _ _ _

/-- Effect of `settlePending` on the correlation machinery: the id
counter, timers and prompt map are untouched; either the pending table
and settled set are unchanged with no settlement emitted, or the given
pending id is removed and settled at most once. -/
theorem settlePending_cases (s : ClientState) (n : Nat) (m : AcpMessage) (pre : List Action)
    (hpre : ∀ j, countSettles j pre = 0) :
    (settlePending s n m pre).1.nextId = s.nextId ∧
    (settlePending s n m pre).1.timers = s.timers ∧
    (settlePending s n m pre).1.promptRequestIds = s.promptRequestIds ∧
    (((settlePending s n m pre).1.pending = s.pending ∧
      (settlePending s n m pre).1.settledIds = s.settledIds ∧
      (∀ j, countSettles j (settlePending s n m pre).2 = 0))
     ∨ (n ∈ s.pending ∧
        (settlePending s n m pre).1.pending = s.pending.filter (fun x => x ≠ n) ∧
        (settlePending s n m pre).1.settledIds
          = (if n ∈ s.settledIds then s.settledIds else s.settledIds ++ [n]) ∧
        (∀ j, countSettles j (settlePending s n m pre).2
          = (if n = j ∧ n ∉ s.settledIds then 1 else 0)))) := by
  simp only [settlePending]
  by_cases hp : n ∈ s.pending
  · rw [if_pos hp]
    cases he : m.error with
    | some msg =>
      refine ⟨by rw [settleNow_fst], by rw [settleNow_fst], by rw [settleNow_fst],
        Or.inr ⟨hp, by rw [settleNow_fst], by rw [settleNow_fst], fun j => ?_⟩⟩
      rw [countSettles_settleNow]
      simp [hpre j]
    | none =>
      refine ⟨by rw [settleNow_fst], by rw [settleNow_fst], by rw [settleNow_fst],
        Or.inr ⟨hp, by rw [settleNow_fst], by rw [settleNow_fst], fun j => ?_⟩⟩
      rw [countSettles_settleNow]
      simp [hpre j]
  · rw [if_neg hp]
    exact ⟨rfl, rfl, rfl, Or.inl ⟨rfl, rfl, hpre⟩⟩

theorem stepSpec_unchanged (s : ClientState) (acts : List Action)
    (h : ∀ j, countSettles j acts = 0) : StepSpec s (s, acts) :=
  ⟨rfl, rfl, fun q hq => hq, Or.inl ⟨rfl, rfl, h⟩⟩

theorem stepSpec_terminals (s : ClientState) (t : List (String × TermEntry)) (tc : Nat)
    (acts : List Action) (h : ∀ j, countSettles j acts = 0) :
    StepSpec s ({ s with terminals := t, terminalCounter := tc }, acts) :=
  ⟨rfl, rfl, fun q hq => hq, Or.inl ⟨rfl, rfl, h⟩⟩

/-- Effect of the response branch on the correlation machinery. -/
theorem handleResponse_cases (s : ClientState) (m : AcpMessage) :
    StepSpec s (handleResponse s m) := by
  cases hn : numId m.id with
  | none =>
    have heq : handleResponse s m = (s, []) := by simp only [handleResponse, hn]
    rw [heq]
    exact stepSpec_unchanged s [] (fun j => rfl)
  | some n =>
    cases hpr : alget n s.promptRequestIds with
    | some sid =>
      have heq : handleResponse s m
          = settlePending { s with promptRequestIds := aldel n s.promptRequestIds } n m
              [Action.emitTurnEnd sid] := by
        simp only [handleResponse, hn, hpr]
      obtain ⟨h1, h2, h3, h4⟩ := settlePending_cases
        { s with promptRequestIds := aldel n s.promptRequestIds } n m [Action.emitTurnEnd sid]
        (fun j => rfl)
      rw [heq]
      refine ⟨h1, h2, fun q hq => ?_, ?_⟩
      · rw [h3] at hq
        exact mem_aldel n q s.promptRequestIds hq
      · rcases h4 with ⟨ha, hb, hc⟩ | ⟨ha, hb, hc, hd⟩
        · exact Or.inl ⟨ha, hb, hc⟩
        · exact Or.inr ⟨n, ha, hb, hc, hd⟩
    | none =>
      have heq : handleResponse s m = settlePending s n m [] := by
        simp only [handleResponse, hn, hpr]
      obtain ⟨h1, h2, h3, h4⟩ := settlePending_cases s n m [] (fun j => rfl)
      rw [heq]
      refine ⟨h1, h2, fun q hq => by rw [h3] at hq; exact hq, ?_⟩
      rcases h4 with ⟨ha, hb, hc⟩ | ⟨ha, hb, hc, hd⟩
      · exact Or.inl ⟨ha, hb, hc⟩
      · exact Or.inr ⟨n, ha, hb, hc, hd⟩

/-- Every inbound line respects the correlation-machinery step
specification. -/
theorem handleLine_cases (s : ClientState) (l : RawLine) :
    StepSpec s (handleLine s l) := by
  cases l with
  | blankLine => exact stepSpec_unchanged s [] (fun j => rfl)
  | unparsable r => exact stepSpec_unchanged s [] (fun j => rfl)
  | parsed m =>
    simp only [handleLine]
    split
    · exact stepSpec_unchanged s _ (fun j => rfl)
    · split
      · simp only [handleTerminalCreate]
        refine stepSpec_terminals s _ _ _ (fun j => ?_)
        rw [countSettles_cons, countSettles_respondActs]
        simp [isSettleFor]
      · split
        · simp only [handleTerminalOutput]
          split <;> exact stepSpec_unchanged s _ (fun j => by simp [countSettles_respondActs])
        · split
          · simp only [handleTerminalWaitForExit]
            split
            · exact stepSpec_unchanged s _ (fun j => by simp [countSettles_respondActs])
            · split
              · exact stepSpec_unchanged s _ (fun j => by simp [countSettles_respondActs])
              · split
                · exact stepSpec_unchanged s _ (fun j => by simp [countSettles_respondActs])
                · exact stepSpec_terminals s _ _ _ (fun j => rfl)
          · split
            · simp only [handleTerminalKill]
              split
              · exact stepSpec_unchanged s _ (fun j => by simp [countSettles_respondActs])
              · split
                · exact stepSpec_unchanged s _ (fun j => by simp [countSettles_respondActs])
                · refine stepSpec_unchanged s _ (fun j => ?_)
                  rw [countSettles_append, countSettles_respondActs]
                  split <;> rfl
            · split
              · simp only [handleTerminalRelease]
                split
                · exact stepSpec_unchanged s _ (fun j => by simp [countSettles_respondActs])
                · refine stepSpec_terminals s _ _ _ (fun j => ?_)
                  rw [countSettles_append, countSettles_respondActs]
                  split <;> first
                    | (split <;> rfl)
                    | rfl
              · split
                · exact handleResponse_cases s m
                · split
                  · split
                    · split <;> exact stepSpec_unchanged s _ (fun j => rfl)
                    · exact stepSpec_unchanged s [] (fun j => rfl)
                  · exact stepSpec_unchanged s [] (fun j => rfl)

theorem step_settled_mono (s : ClientState) (e : Event) (i : Nat)
    (h : i ∈ s.settledIds) : i ∈ (step s e).1.settledIds := by
  cases e with
  | line l =>
    obtain ⟨-, -, -, hd⟩ := handleLine_cases s l
    simp only [step]
    rcases hd with ⟨-, hb, -⟩ | ⟨n, -, -, hb, -⟩ <;> rw [hb]
    · exact h
    · split
      · exact h
      · exact List.mem_append_left _ h
  | controlRequest m =>
    simp only [step]
    split
    · exact h
    · rw [settleNow_fst]
      dsimp only
      split
      · exact h
      · exact List.mem_append_left _ h
  | promptCall sid =>
    simp only [step]
    split <;> exact h
  | timerFires j =>
    simp only [step]
    split
    · exact h
    · split
      · rw [settleNow_fst]
        dsimp only
        split
        · exact h
        · exact List.mem_append_left _ h
      · exact h
  | termData tid chunk =>
    simp only [step]
    split
    · split <;> exact h
    · exact h
  | termClose tid code =>
    simp only [step]
    split
    · exact h
    · split
      · exact h
      · exact h
  | procClose code =>
    simp only [step]
    exact List.mem_append_left _ h
  | procError msg =>
    simp only [step]
    exact h

theorem step_settle_emitted (s : ClientState) (e : Event) (i : Nat)
    (h : countSettles i (step s e).2 ≠ 0) : i ∈ (step s e).1.settledIds := by
  cases e with
  | line l =>
    obtain ⟨-, -, -, hd⟩ := handleLine_cases s l
    simp only [step] at h ⊢
    rcases hd with ⟨-, -, hz⟩ | ⟨n, -, -, hb, hd'⟩
    · exact absurd (hz i) h
    · rw [hd' i] at h
      by_cases hcond : n = i ∧ n ∉ s.settledIds
      · obtain ⟨rfl, hns⟩ := hcond
        rw [hb, if_neg hns]
        exact List.mem_append_right _ (by simp)
      · rw [if_neg hcond] at h
        exact absurd rfl h
  | controlRequest m =>
    simp only [step] at h ⊢
    by_cases hw : s.writable = true
    · rw [if_pos hw] at h
      exact absurd rfl h
    · rw [if_neg hw] at h ⊢
      rw [countSettles_settleNow] at h
      rw [settleNow_fst]
      dsimp only at h ⊢
      by_cases hcond : s.nextId = i ∧ s.nextId ∉ s.settledIds
      · obtain ⟨hrfl, hns⟩ := hcond
        rw [if_neg hns]
        exact List.mem_append_right _ (by simp [hrfl])
      · rw [if_neg hcond] at h
        simp [countSettles, isSettleFor] at h
  | promptCall sid =>
    simp only [step] at h
    split at h <;> exact absurd rfl h
  | timerFires j =>
    simp only [step] at h ⊢
    cases hg : alget j s.timers with
    | none =>
      rw [hg] at h
      exact absurd rfl h
    | some tmj =>
      rw [hg] at h
      dsimp only at h ⊢
      by_cases hjp : j ∈ s.pending
      · rw [if_pos hjp] at h ⊢
        rw [countSettles_settleNow] at h
        rw [settleNow_fst]
        dsimp only at h ⊢
        by_cases hcond : j = i ∧ j ∉ s.settledIds
        · obtain ⟨rfl, hns⟩ := hcond
          rw [if_neg hns]
          exact List.mem_append_right _ (by simp)
        · rw [if_neg hcond] at h
          exact absurd rfl h
      · rw [if_neg hjp] at h
        exact absurd rfl h
  | termData tid chunk =>
    simp only [step] at h
    split at h
    · split at h <;> exact absurd rfl h
    · exact absurd rfl h
  | termClose tid code =>
    simp only [step] at h
    split at h
    · exact absurd rfl h
    · split at h
      · exact absurd rfl h
      · rw [countSettles_flatMapRespond] at h
        exact absurd rfl h
  | procClose code =>
    simp only [step] at h ⊢
    rw [countSettles_append] at h
    have h2 : countSettles i [Action.emitExit code] = 0 := rfl
    rw [h2, Nat.add_zero] at h
    simp only [countSettles, List.countP_map] at h
    have h3 : ∃ x ∈ s.pending.filter (fun x => x ∉ s.settledIds),
        ((isSettleFor i) ∘ (fun x => Action.settle x (SettleKind.rejectedFailAll code))) x := by
      rw [← List.countP_pos]
      omega
    obtain ⟨x, hx, hx2⟩ := h3
    simp only [Function.comp, isSettleFor, decide_eq_true_eq] at hx2
    subst hx2
    exact List.mem_append_right _ hx
  | procError msg =>
    simp only [step] at h
    exact absurd rfl h

theorem step_no_settle_of_settled (s : ClientState) (e : Event) (i : Nat)
    (h : i ∈ s.settledIds) : countSettles i (step s e).2 = 0 := by
  cases e with
  | line l =>
    obtain ⟨-, -, -, hd⟩ := handleLine_cases s l
    simp only [step]
    rcases hd with ⟨-, -, hz⟩ | ⟨n, -, -, -, hd'⟩
    · exact hz i
    · rw [hd' i]
      by_cases hni : n = i
      · subst hni
        simp [h]
      · simp [hni]
  | controlRequest m =>
    simp only [step]
    split
    · rfl
    · rw [countSettles_settleNow]
      dsimp only
      by_cases hni : s.nextId = i
      · subst hni
        simp [h, countSettles, isSettleFor]
      · simp [hni, countSettles, isSettleFor]
  | promptCall sid =>
    simp only [step]
    split <;> rfl
  | timerFires j =>
    simp only [step]
    split
    · rfl
    · split
      · rw [countSettles_settleNow]
        have h0 : countSettles i ([] : List Action) = 0 := rfl
        rw [h0]
        dsimp only
        by_cases hni : j = i
        · subst hni
          simp [h]
        · simp [hni]
      · rfl
  | termData tid chunk =>
    simp only [step]
    split
    · split <;> rfl
    · rfl
  | termClose tid code =>
    simp only [step]
    split
    · rfl
    · split
      · rfl
      · rw [countSettles_flatMapRespond]
  | procClose code =>
    simp only [step]
    rw [countSettles_append]
    have h2 : countSettles i [Action.emitExit code] = 0 := rfl
    rw [h2, Nat.add_zero]
    simp only [countSettles, List.countP_map]
    refine List.countP_eq_zero.mpr ?_
    intro x hx
    have hxs : x ∉ s.settledIds := by
      have := List.mem_filter.mp hx
      simpa using this.2
    simp only [Function.comp, isSettleFor, decide_eq_true_eq]
    intro hxi
    exact hxs (hxi ▸ h)
  | procError msg =>
    simp only [step]
    rfl

theorem le_one_of_eq_zero {n : Nat} (h : n = 0) : n ≤ 1 := by omega

theorem step_settle_le_one (s : ClientState) (e : Event) (i : Nat)
    (hnd : s.pending.Nodup) : countSettles i (step s e).2 ≤ 1 := by
  cases e with
  | line l =>
    obtain ⟨-, -, -, hd⟩ := handleLine_cases s l
    simp only [step]
    rcases hd with ⟨-, -, hz⟩ | ⟨n, -, -, -, hd'⟩
    · rw [hz i]
      omega
    · rw [hd' i]
      split <;> omega
  | controlRequest m =>
    simp only [step]
    split
    · exact le_one_of_eq_zero rfl
    · rw [countSettles_settleNow]
      have h0 : countSettles i [Action.sendThrew "ACP process not writable"] = 0 := rfl
      rw [h0]
      split <;> omega
  | promptCall sid =>
    simp only [step]
    split <;> exact le_one_of_eq_zero rfl
  | timerFires j =>
    simp only [step]
    split
    · exact le_one_of_eq_zero rfl
    · split
      · rw [countSettles_settleNow]
        have h0 : countSettles i ([] : List Action) = 0 := rfl
        rw [h0]
        split <;> omega
      · exact le_one_of_eq_zero rfl
  | termData tid chunk =>
    simp only [step]
    split
    · split <;> exact le_one_of_eq_zero rfl
    · exact le_one_of_eq_zero rfl
  | termClose tid code =>
    simp only [step]
    split
    · exact le_one_of_eq_zero rfl
    · split
      · exact le_one_of_eq_zero rfl
      · exact le_one_of_eq_zero (countSettles_flatMapRespond i s _ _)
  | procClose code =>
    simp only [step]
    rw [countSettles_append]
    have h2 : countSettles i [Action.emitExit code] = 0 := rfl
    rw [h2, Nat.add_zero]
    simp only [countSettles, List.countP_map]
    have hcomp : ((isSettleFor i) ∘ (fun x => Action.settle x (SettleKind.rejectedFailAll code)))
        = fun x => decide (x = i) := by
      funext x
      simp [Function.comp, isSettleFor]
    rw [hcomp]
    exact countP_eq_le_one_of_nodup i _ (hnd.filter _)
  | procError msg =>
    simp only [step]
    exact le_one_of_eq_zero rfl

theorem step_timers_alget (s : ClientState) (e : Event) (i : Nat) (tm : String)
    (ht : alget i s.timers = some tm) (hne : e ≠ Event.timerFires i) :
    alget i (step s e).1.timers = some tm := by
  cases e with
  | line l =>
    obtain ⟨-, hb, -, -⟩ := handleLine_cases s l
    simp only [step]
    rw [hb]
    exact ht
  | controlRequest m =>
    simp only [step]
    split
    · exact alget_append_left _ _ _ _ ht
    · rw [settleNow_fst]
      exact ht
  | promptCall sid =>
    simp only [step]
    split <;> exact ht
  | timerFires j =>
    have hij : i ≠ j := fun hc => hne (hc ▸ rfl)
    simp only [step]
    split
    · exact ht
    · split
      · rw [settleNow_fst]
        dsimp only
        rw [alget_aldel_ne j i s.timers hij]
        exact ht
      · dsimp only
        rw [alget_aldel_ne j i s.timers hij]
        exact ht
  | termData tid chunk =>
    simp only [step]
    split
    · split <;> exact ht
    · exact ht
  | termClose tid code =>
    simp only [step]
    split
    · exact ht
    · split
      · exact ht
      · exact ht
  | procClose code =>
    simp only [step]
    exact ht
  | procError msg =>
    simp only [step]
    exact ht

theorem step_timerFire_settles (s : ClientState) (i : Nat) (tm : String)
    (ht : alget i s.timers = some tm) (hip : i ∈ s.pending) (his : i ∉ s.settledIds) :
    countSettles i (step s (Event.timerFires i)).2 = 1 := by
  simp only [step, ht]
  rw [if_pos hip]
  rw [countSettles_settleNow]
  have h0 : countSettles i ([] : List Action) = 0 := rfl
  rw [h0]
  dsimp only
  rw [if_pos ⟨rfl, his⟩]

theorem nodup_append_fresh (l : List Nat) (a : Nat) (h : l.Nodup)
    (hb : ∀ x ∈ l, x < a) : (l ++ [a]).Nodup := by
  refine List.nodup_append.mpr ⟨h, List.nodup_singleton a, ?_⟩
  intro x hx hx'
  have : x = a := by simpa using hx'
  subst this
  exact Nat.lt_irrefl x (hb x hx)

theorem mem_keys_aldel {α β : Type} [DecidableEq α] (k x : α) (l : List (α × β))
    (h : x ∈ (aldel k l).map Prod.fst) : x ∈ l.map Prod.fst := by
  obtain ⟨q, hq, rfl⟩ := List.mem_map.mp h
  exact List.mem_map.mpr ⟨q, mem_aldel k q l hq, rfl⟩

theorem nodup_keys_aldel {α β : Type} [DecidableEq α] (k : α) (l : List (α × β))
    (h : (l.map Prod.fst).Nodup) : ((aldel k l).map Prod.fst).Nodup := by
  induction l with
  | nil => exact List.nodup_nil
  | cons p rest ih =>
    obtain ⟨k', v'⟩ := p
    rw [List.map_cons] at h
    rcases List.nodup_cons.mp h with ⟨hk', hrest⟩
    by_cases hk : k' = k
    · rw [aldel, if_pos hk]
      exact ih hrest
    · rw [aldel, if_neg hk, List.map_cons]
      exact List.nodup_cons.mpr ⟨fun hc => hk' (mem_keys_aldel k k' rest hc), ih hrest⟩

theorem inv_step (s : ClientState) (e : Event) (hInv : Inv s) : Inv (step s e).1 := by
  obtain ⟨h1, h2, h3, h4, h5, h6⟩ := hInv
  cases e with
  | line l =>
    obtain ⟨ha, hb, hc, hd⟩ := handleLine_cases s l
    simp only [step]
    rcases hd with ⟨hp, hs', -⟩ | ⟨n, hn, hp, hs', -⟩
    · refine ⟨?_, ?_, ?_, ?_, ?_, ?_⟩
      · rw [hp]; exact h1
      · rw [hp, ha]; exact h2
      · rw [hs', ha]; exact h3
      · rw [hb]; exact h4
      · rw [hb, ha]; exact h5
      · rw [ha]; intro q hq; exact h6 q (hc q hq)
    · refine ⟨?_, ?_, ?_, ?_, ?_, ?_⟩
      · rw [hp]; exact h1.filter _
      · rw [hp, ha]; intro x hx; exact h2 x (List.mem_of_mem_filter hx)
      · rw [hs', ha]
        by_cases hns : n ∈ s.settledIds
        · rw [if_pos hns]; exact h3
        · rw [if_neg hns]
          intro x hx
          rcases List.mem_append.mp hx with hx | hx
          · exact h3 x hx
          · have hxn : x = n := by simpa using hx
            subst hxn
            exact h2 x hn
      · rw [hb]; exact h4
      · rw [hb, ha]; exact h5
      · rw [ha]; intro q hq; exact h6 q (hc q hq)
  | controlRequest m =>
    simp only [step]
    split
    · refine ⟨?_, ?_, ?_, ?_, ?_, ?_⟩ <;> dsimp only
      · exact nodup_append_fresh _ _ h1 h2
      · intro x hx
        rcases List.mem_append.mp hx with hx | hx
        · exact Nat.lt_succ_of_lt (h2 x hx)
        · have hxn : x = s.nextId := by simpa using hx
          omega
      · intro x hx
        exact Nat.lt_succ_of_lt (h3 x hx)
      · rw [List.map_append]
        refine List.nodup_append.mpr ⟨h4, by simp, ?_⟩
        intro x hx hx'
        have hxn : x = s.nextId := by simpa using hx'
        subst hxn
        obtain ⟨q, hq, hq2⟩ := List.mem_map.mp hx
        exact absurd (hq2 ▸ h5 q hq) (by omega)
      · intro p hp
        rcases List.mem_append.mp hp with hp | hp
        · exact Nat.lt_succ_of_lt (h5 p hp)
        · have hpn : p = (s.nextId, m) := by simpa using hp
          subst hpn
          omega
      · intro q hq
        exact Nat.lt_succ_of_lt (h6 q hq)
    · rw [settleNow_fst]
      refine ⟨?_, ?_, ?_, ?_, ?_, ?_⟩ <;> dsimp only
      · exact nodup_append_fresh _ _ h1 h2
      · intro x hx
        rcases List.mem_append.mp hx with hx | hx
        · exact Nat.lt_succ_of_lt (h2 x hx)
        · have hxn : x = s.nextId := by simpa using hx
          omega
      · by_cases hns : s.nextId ∈ s.settledIds
        · rw [if_pos hns]
          intro x hx
          exact Nat.lt_succ_of_lt (h3 x hx)
        · rw [if_neg hns]
          intro x hx
          rcases List.mem_append.mp hx with hx | hx
          · exact Nat.lt_succ_of_lt (h3 x hx)
          · have hxn : x = s.nextId := by simpa using hx
            omega
      · exact h4
      · intro p hp
        exact Nat.lt_succ_of_lt (h5 p hp)
      · intro q hq
        exact Nat.lt_succ_of_lt (h6 q hq)
  | promptCall sid =>
    simp only [step]
    split <;>
    · refine ⟨h1, ?_, ?_, h4, ?_, ?_⟩ <;> dsimp only
      · intro x hx
        exact Nat.lt_succ_of_lt (h2 x hx)
      · intro x hx
        exact Nat.lt_succ_of_lt (h3 x hx)
      · intro p hp
        exact Nat.lt_succ_of_lt (h5 p hp)
      · intro q hq
        rcases List.mem_append.mp hq with hq | hq
        · exact Nat.lt_succ_of_lt (h6 q hq)
        · have hqn : q = (s.nextId, sid) := by simpa using hq
          subst hqn
          omega
  | timerFires j =>
    simp only [step]
    split
    · exact ⟨h1, h2, h3, h4, h5, h6⟩
    · split
      · rw [settleNow_fst]
        refine ⟨?_, ?_, ?_, ?_, ?_, h6⟩ <;> dsimp only
        · exact h1.filter _
        · intro x hx
          exact h2 x (List.mem_of_mem_filter hx)
        · by_cases hns : j ∈ s.settledIds
          · rw [if_pos hns]
            exact h3
          · rw [if_neg hns]
            intro x hx
            rcases List.mem_append.mp hx with hx | hx
            · exact h3 x hx
            · have hxn : x = j := by simpa using hx
              subst hxn
              next hjp _ => exact h2 x hjp
        · exact nodup_keys_aldel j s.timers h4
        · intro p hp
          exact h5 p (mem_aldel j p s.timers hp)
      · refine ⟨h1, h2, h3, ?_, ?_, h6⟩ <;> dsimp only
        · exact nodup_keys_aldel j s.timers h4
        · intro p hp
          exact h5 p (mem_aldel j p s.timers hp)
  | termData tid chunk =>
    simp only [step]
    split
    · split <;> exact ⟨h1, h2, h3, h4, h5, h6⟩
    · exact ⟨h1, h2, h3, h4, h5, h6⟩
  | termClose tid code =>
    simp only [step]
    split
    · exact ⟨h1, h2, h3, h4, h5, h6⟩
    · split <;> exact ⟨h1, h2, h3, h4, h5, h6⟩
  | procClose code =>
    simp only [step]
    refine ⟨List.nodup_nil, ?_, ?_, h4, h5, h6⟩ <;> dsimp only
    · intro x hx
      simp at hx
    · intro x hx
      rcases List.mem_append.mp hx with hx | hx
      · exact h3 x hx
      · exact h2 x (List.mem_of_mem_filter hx)
  | procError msg =>
    simp only [step]
    exact ⟨h1, h2, h3, h4, h5, h6⟩

theorem step_live (s : ClientState) (e : Event) (i : Nat) (hInv : Inv s)
    (hip : i ∈ s.pending) (his : i ∉ s.settledIds)
    (hz : countSettles i (step s e).2 = 0) :
    i ∈ (step s e).1.pending ∧ i ∉ (step s e).1.settledIds := by
  obtain ⟨h1, h2, h3, h4, h5, h6⟩ := hInv
  cases e with
  | line l =>
    obtain ⟨-, -, -, hd⟩ := handleLine_cases s l
    simp only [step] at hz ⊢
    rcases hd with ⟨hp, hs', -⟩ | ⟨n, hn, hp, hs', hd'⟩
    · rw [hp, hs']
      exact ⟨hip, his⟩
    · rw [hd' i] at hz
      have hni : n ≠ i := by
        intro hc
        subst hc
        rw [if_pos ⟨rfl, his⟩] at hz
        exact absurd hz (by omega)
      constructor
      · rw [hp]
        exact List.mem_filter.mpr ⟨hip, by simpa using fun hc => hni hc.symm⟩
      · rw [hs']
        by_cases hns : n ∈ s.settledIds
        · rw [if_pos hns]
          exact his
        · rw [if_neg hns]
          intro hc
          rcases List.mem_append.mp hc with hc | hc
          · exact his hc
          · have hin2 : i = n := by simpa using hc
            exact hni hin2.symm
  | controlRequest m =>
    simp only [step] at hz ⊢
    have hlt : i < s.nextId := h2 i hip
    by_cases hw : s.writable = true
    · rw [if_pos hw]
      exact ⟨List.mem_append_left _ hip, his⟩
    · rw [if_neg hw] at hz ⊢
      rw [settleNow_fst]
      refine ⟨List.mem_append_left _ hip, ?_⟩
      dsimp only
      by_cases hns : s.nextId ∈ s.settledIds
      · rw [if_pos hns]
        exact his
      · rw [if_neg hns]
        intro hc
        rcases List.mem_append.mp hc with hc | hc
        · exact his hc
        · have : i = s.nextId := by simpa using hc
          omega
  | promptCall sid =>
    simp only [step]
    split <;> exact ⟨hip, his⟩
  | timerFires j =>
    simp only [step] at hz ⊢
    cases hg : alget j s.timers with
    | none => exact ⟨hip, his⟩
    | some tmj =>
      rw [hg] at hz
      dsimp only at hz ⊢
      by_cases hjp : j ∈ s.pending
      · rw [if_pos hjp] at hz ⊢
        rw [countSettles_settleNow] at hz
        have h0 : countSettles i ([] : List Action) = 0 := rfl
        rw [h0] at hz
        dsimp only at hz
        have hji : j ≠ i := by
          intro hc
          subst hc
          rw [if_pos ⟨rfl, his⟩] at hz
          exact absurd hz (by omega)
        rw [settleNow_fst]
        constructor
        · dsimp only
          exact List.mem_filter.mpr ⟨hip, by simpa using fun hc => hji hc.symm⟩
        · dsimp only
          by_cases hns : j ∈ s.settledIds
          · rw [if_pos hns]
            exact his
          · rw [if_neg hns]
            intro hc
            rcases List.mem_append.mp hc with hc | hc
            · exact his hc
            · have hin2 : i = j := by simpa using hc
              exact hji hin2.symm
      · rw [if_neg hjp]
        exact ⟨hip, his⟩
  | termData tid chunk =>
    simp only [step]
    split
    · split <;> exact ⟨hip, his⟩
    · exact ⟨hip, his⟩
  | termClose tid code =>
    simp only [step]
    split
    · exact ⟨hip, his⟩
    · split <;> exact ⟨hip, his⟩
  | procClose code =>
    exfalso
    simp only [step] at hz
    rw [countSettles_append] at hz
    have h2' : countSettles i [Action.emitExit code] = 0 := rfl
    rw [h2', Nat.add_zero] at hz
    simp only [countSettles, List.countP_map] at hz
    have hmem : i ∈ s.pending.filter (fun x => x ∉ s.settledIds) :=
      List.mem_filter.mpr ⟨hip, by simpa using his⟩
    have hpos : 0 < (s.pending.filter (fun x => x ∉ s.settledIds)).countP
        ((isSettleFor i) ∘ (fun x => Action.settle x (SettleKind.rejectedFailAll code))) := by
      refine List.countP_pos_iff.mpr ⟨i, hmem, ?_⟩
      simp [Function.comp, isSettleFor]
    omega
  | procError msg =>
    simp only [step]
    exact ⟨hip, his⟩

theorem run_count_zero_of_settled (s : ClientState) (es : List Event) (i : Nat)
    (h : i ∈ s.settledIds) : countSettles i (run s es).2 = 0 := by
  induction es generalizing s with
  | nil => rfl
  | cons e rest ih =>
    rw [run_cons]
    dsimp only
    rw [countSettles_append]
    rw [step_no_settle_of_settled s e i h, ih _ (step_settled_mono s e i h)]

theorem run_count_le_one (s : ClientState) (es : List Event) (i : Nat)
    (hInv : Inv s) : countSettles i (run s es).2 ≤ 1 := by
  induction es generalizing s with
  | nil => exact Nat.zero_le 1
  | cons e rest ih =>
    rw [run_cons]
    dsimp only
    rw [countSettles_append]
    by_cases h1 : countSettles i (step s e).2 = 0
    · rw [h1]
      simpa using ih _ (inv_step s e hInv)
    · have hset : i ∈ (step s e).1.settledIds := step_settle_emitted s e i h1
      rw [run_count_zero_of_settled _ rest i hset]
      have := step_settle_le_one s e i hInv.1
      omega

theorem run_count_pos (s : ClientState) (es : List Event) (i : Nat) (tm : String)
    (hInv : Inv s) (ht : alget i s.timers = some tm) (hip : i ∈ s.pending)
    (his : i ∉ s.settledIds) (hin : Event.timerFires i ∈ es) :
    1 ≤ countSettles i (run s es).2 := by
  induction es generalizing s tm with
  | nil => simp at hin
  | cons e rest ih =>
    rw [run_cons]
    dsimp only
    rw [countSettles_append]
    by_cases h1 : countSettles i (step s e).2 = 0
    · have hne : e ≠ Event.timerFires i := by
        intro hc
        subst hc
        rw [step_timerFire_settles s i tm ht hip his] at h1
        exact absurd h1 (by omega)
      have hin' : Event.timerFires i ∈ rest := by
        rcases List.mem_cons.mp hin with hc | hc
        · exact absurd hc.symm hne
        · exact hc
      obtain ⟨hip', his'⟩ := step_live s e i hInv hip his h1
      have ht' := step_timers_alget s e i tm ht hne
      have := ih (step s e).1 tm (inv_step s e hInv) ht' hip' his' hin'
      omega
    · omega

/-- C2: for a correlation id allocated by a client-initiated control
request — pending, unsettled, with its 60 s timer armed — any sequence of
events (inbound lines, further requests and prompts, timer firings,
terminal events, process close or error) settles its awaitable at most
once, and exactly once as soon as the trace contains the firing of its
own timer: exactly one of resolve, reject-with-error, timeout-reject or
failAll-reject wins, and an id removed from the pending table is never
satisfied again. -/
theorem pendingIdSettledExactlyOnce (s : ClientState) (hInv : Inv s) (i : Nat) (tm : String)
    (es : List Event) (hip : i ∈ s.pending) (his : i ∉ s.settledIds)
    (ht : alget i s.timers = some tm) :
    countSettles i (run s es).2 ≤ 1 ∧
    (Event.timerFires i ∈ es → countSettles i (run s es).2 = 1) :=
  ⟨run_count_le_one s es i hInv,
   fun hin => Nat.le_antisymm (run_count_le_one s es i hInv)
     (run_count_pos s es i tm hInv ht hip his hin)⟩

/-- C2 witness: a pending control request (id 1) with its timer armed is
settled exactly once on a concrete trace containing its timer firing
after a stray response, a prompt and a second timer firing. -/
theorem pendingIdSettledExactlyOnce_witness :
    countSettles 1 (run c5State
      [Event.line (RawLine.parsed (respMsg 1)), Event.promptCall "s2",
       Event.timerFires 1, Event.timerFires 1]).2 ≤ 1 ∧
    (Event.timerFires 1 ∈
      [Event.line (RawLine.parsed (respMsg 1)), Event.promptCall "s2",
       Event.timerFires 1, Event.timerFires 1] →
     countSettles 1 (run c5State
      [Event.line (RawLine.parsed (respMsg 1)), Event.promptCall "s2",
       Event.timerFires 1, Event.timerFires 1]).2 = 1) :=
  pendingIdSettledExactlyOnce c5State (by simp only [Inv]; decide) 1 "session/load"
    [Event.line (RawLine.parsed (respMsg 1)), Event.promptCall "s2",
     Event.timerFires 1, Event.timerFires 1]
    (by decide) (by decide) (by decide)

end AcpClientModel
